import Mathlib

/-!
Shallow embedding of the gol-sync-server synchronization core (src/server.js).

State lives in JavaScript `Map`s keyed by the raw request values; we model a
`Map` as an insertion-ordered association list with `mapGet`/`mapSet`
mirroring `Map.get`/`Map.set`.  Times are epoch milliseconds.  Monetary
values are embedded as exact rationals (the JS numbers), as the spec's
aggregator preserves full precision.
-/

namespace GolSync

/-- A sale record as pushed by a store (src/server.js, /api/sync/push).
`created_at`/`timestamp` are optional epoch-millisecond times; `none` models
a field that is absent or falsy (so that `created_at || timestamp` is an
`Option.or`).  `total` is the numeric total (`sale.total || 0` makes an
absent total behave as 0, so we keep it as a plain rational). -/
structure Sale where
  sale_number : String
  created_at : Option Nat
  timestamp : Option Nat
  total : ℚ
  deriving DecidableEq

/-- A product record as pushed by a store (src/server.js, /api/sync/products/push).
Identity fields `id`/`barcode`/`sku` are optional; `none` models absence. -/
structure Product where
  id : Option Int
  barcode : Option String
  sku : Option String
  name : String
  price : ℚ
  deriving DecidableEq

/-- A category record (`categoriesStore` is keyed by `cat.id`). -/
structure Category where
  id : Int
  name : String
  deriving DecidableEq

/-- A JSON value found in a request field.  Request fields are
`Option ReqVal`, with `none` for an absent field (JS `undefined`). -/
inductive ReqVal where
  | num (n : Int)
  | str (s : String)
  | arr (l : List Sale)
  | bool (b : Bool)
  | null
  deriving DecidableEq

/-- JavaScript truthiness of a JSON value (`!v` is `!truthy v`). -/
def ReqVal.truthy : ReqVal → Bool
  | .num n => n != 0
  | .str s => s != ""
  | .arr _ => true
  | .bool b => b
  | .null => false

/-- Truthiness of a possibly absent request field (absent/`undefined` is falsy). -/
def truthyOpt : Option ReqVal → Bool
  | some v => v.truthy
  | none => false

/-- `Array.isArray` on a possibly absent request field. -/
def isArrOpt : Option ReqVal → Bool
  | some (.arr _) => true
  | _ => false

/-- `Map.get`: the value at the first matching key, if any. -/
def mapGet {K V : Type} [DecidableEq K] : List (K × V) → K → Option V
  | [], _ => none
  | e :: es, k => if e.1 = k then some e.2 else mapGet es k

/-- `Map.set`: replace the value at an existing key in place (insertion order
is preserved), else append a new entry. -/
def mapSet {K V : Type} [DecidableEq K] : List (K × V) → K → V → List (K × V)
  | [], k, v => [(k, v)]
  | e :: es, k, v => if e.1 = k then (k, v) :: es else e :: mapSet es k v

/-- The `salesStore` map: raw `storeId` request value ↦ that store's ledger. -/
abbrev SalesStore := List (ReqVal × List Sale)

/-- `sale.created_at || sale.timestamp`: the first present event time, if any.
When both are absent, `new Date(undefined)` is an Invalid Date and every
comparison against it is false. -/
def evTime (s : Sale) : Option Nat := s.created_at.or s.timestamp

/-- The sort key `new Date(a.created_at || a.timestamp || 0)`: event time with
fallback 0. -/
def sortKey (s : Sale) : Nat := (evTime s).getD 0

/-- Response of POST /api/sync/push: `invalid` is the 400 "Invalid request
data" reply; `ok accepted totalSales` carries the count of newly stored
records (the `Received N sales` message) and the store's ledger length. -/
inductive PushResp where
  | invalid
  | ok (accepted : Nat) (totalSales : Nat)
  deriving DecidableEq

/-- The sales of a request's `sales` field, once it is known to be an array. -/
def getArr : Option ReqVal → List Sale
  | some (.arr l) => l
  | _ => []

/-- The store's current ledger, `salesStore.get(storeId) || []`. -/
def existingOf (σ : SalesStore) (sid : ReqVal) : List Sale := (mapGet σ sid).getD []

/-- The accepted records of a push: the incoming ones whose `sale_number` does
not occur in the store's existing ledger
(`sales.filter(sale => !existingSales.some(e => e.sale_number === sale.sale_number))`). -/
def freshOf (σ : SalesStore) (sid : ReqVal) (b : List Sale) : List Sale :=
  b.filter fun sale =>
    !(existingOf σ sid).any fun existing => existing.sale_number == sale.sale_number

/-- The accepting branch of POST /api/sync/push: append the accepted records
to the ledger and report their count and the updated ledger length
(`salesStore.get(storeId).length` after the set). -/
def pushBody (σ : SalesStore) (sid : ReqVal) (b : List Sale) : SalesStore × PushResp :=
  let σ' := mapSet σ sid (existingOf σ sid ++ freshOf σ sid b)
  (σ', .ok (freshOf σ sid b).length ((mapGet σ' sid).getD []).length)

/-- POST /api/sync/push (src/server.js lines 452-480).
The guard `!storeId || !sales || !Array.isArray(sales)` rejects exactly the
requests where `storeId` is absent or falsy, or `sales` is not an array
(a falsy `sales` fails `!sales`, a truthy non-array fails `Array.isArray`,
and an array is always truthy) — hence the accepting condition
`truthyOpt storeId && isArrOpt sales`, under which `storeId` is
`some sid`. -/
def push (σ : SalesStore) (storeId sales : Option ReqVal) : SalesStore × PushResp :=
  if truthyOpt storeId && isArrOpt sales then
    pushBody σ (storeId.getD .null) (getArr sales)
  else (σ, .invalid)

/-- The pull-side `since` filter: with `since = some t` keep exactly the sales
whose event time is strictly greater than `t`; a sale with no event time is
an Invalid Date, and `saleTime > sinceTime` is then false.  With no `since`
every sale is kept. -/
def sinceKeep (since : Option Nat) (s : Sale) : Bool :=
  match since with
  | none => true
  | some t =>
    match evTime s with
    | some ts => decide (t < ts)
    | none => false

/-- `storeId && parseInt(storeId) === id`: skip the entry whose key is the
number the query's `storeId` parses to.  `storeId : Option Int` models the
query string: `some m` when it is truthy and `parseInt` yields `m`; `none`
when it is absent or empty (falsy) or non-numeric (`parseInt` gives `NaN`,
and `NaN === id` is false for every key, so nothing is skipped). -/
def skipStore (storeId : Option Int) (k : ReqVal) : Bool :=
  match storeId with
  | some m => k == ReqVal.num m
  | none => false

/-- Descending-time order used by the pull sort `timeB - timeA`:
`a` may precede `b` iff `b`'s key is not larger. -/
def pullLe (a b : Sale) : Prop := sortKey b ≤ sortKey a

instance : DecidableRel pullLe := fun a b => inferInstanceAs (Decidable (sortKey b ≤ sortKey a))

instance : IsTotal Sale pullLe := ⟨fun a b => Nat.le_total (sortKey b) (sortKey a)⟩

instance : IsTrans Sale pullLe := ⟨fun _ _ _ hab hbc => le_trans hbc hab⟩

/-- GET /api/sync/pull (src/server.js lines 483-526): concatenate, over the
store map in insertion order, the ledgers of every store other than the
requesting one, filtered by `since`, then sort by event time, newest
first. -/
def pull (σ : SalesStore) (storeId : Option Int) (since : Option Nat) : List Sale :=
  let allSales := σ.foldl
    (fun acc e => if skipStore storeId e.1 then acc else acc ++ e.2.filter (sinceKeep since)) []
  List.insertionSort pullLe allSales

/-! ### Catalog replication (/api/sync/products/push) -/

/-- A product's map key once resolved: a number (`id`) or a string
(`barcode`/`sku`). -/
abbrev ProdKey := Sum Int String

/-- JS truthiness of an optional numeric field (0 is falsy). -/
def truthyInt : Option Int → Bool
  | some n => n != 0
  | none => false

/-- JS truthiness of an optional string field ("" is falsy). -/
def truthyStr : Option String → Bool
  | some s => s != ""
  | none => false

/-- `p.id || p.barcode || p.sku`: the first truthy of the identity fields; in
last position `p.sku` passes through unchanged, so an absent `sku` yields an
undefined key (`none`), which is itself a valid `Map` key. -/
def prodKey (p : Product) : Option ProdKey :=
  if truthyInt p.id then p.id.map Sum.inl
  else if truthyStr p.barcode then p.barcode.map Sum.inr
  else p.sku.map Sum.inr

/-- The `productsStore` map: raw `storeId` request value ↦ that store's
product list. -/
abbrev ProductsStore := List (ReqVal × List Product)

/-- The `categoriesStore` map: `cat.id` ↦ category. -/
abbrev CatStore := List (Int × Category)

/-- `forEach(p => productMap.set(p.id || p.barcode || p.sku, p))` over a
product list, starting from map `init`. -/
def buildProdMap (init : List (Option ProdKey × Product)) (ps : List Product) :
    List (Option ProdKey × Product) :=
  ps.foldl (fun m p => mapSet m (prodKey p) p) init

/-- The products-push merge (src/server.js lines 573-589): rebuild a keyed map
from the existing list, upsert each incoming product by key, and read the
values back in `Map` insertion order. -/
def mergeProducts (existing ps : List Product) : List Product :=
  (buildProdMap (buildProdMap [] existing) ps).map Prod.snd

/-- Response of POST /api/sync/products/push. -/
inductive CatalogResp where
  | invalid
  | ok (totalProducts : Nat) (isLastBatch : Bool)
  deriving DecidableEq

/-- POST /api/sync/products/push (src/server.js lines 563-651).
`products`/`categories` are `some l` when the field is an array, else `none`
(an absent, falsy or non-array field fails the `&& Array.isArray(...)` guard
and that branch is skipped).  The best-effort Supabase writes are external
I/O outside the embedded core.  The reply reports the store's resulting
product-list length. -/
def pushCatalog (σp : ProductsStore) (κ : CatStore) (storeId : Option ReqVal)
    (products : Option (List Product)) (categories : Option (List Category))
    (isLastBatch : Bool) : ProductsStore × CatStore × CatalogResp :=
  if truthyOpt storeId then
    let sid := storeId.getD .null
    let σp' :=
      match products with
      | some ps =>
        if ps.length > 0 then
          mapSet σp sid (mergeProducts ((mapGet σp sid).getD []) ps)
        else σp
      | none => σp
    let κ' :=
      match categories with
      | some cs => cs.foldl (fun m c => mapSet m c.id c) κ
      | none => κ
    (σp', κ', .ok ((mapGet σp' sid).getD []).length isLastBatch)
  else (σp, κ, .invalid)

/-! ### Owner report (/api/owner/report) -/

/-- Milliseconds per day. -/
def msPerDay : Nat := 86400000

/-- The UTC calendar-day index of an epoch-millisecond time: two times get
the same index iff `toISOString` gives them the same `YYYY-MM-DD` date
part. -/
def utcDay (t : Nat) : Nat := t / msPerDay

/-- The report's date filter `saleDate >= start && saleDate <= end`
(closed interval); a sale with no event time is an Invalid Date and never
qualifies. -/
def inRange (start endT : Nat) (s : Sale) : Bool :=
  match evTime s with
  | some t => decide (start ≤ t) && decide (t ≤ endT)
  | none => false

/-- One per-day bucket of `salesByDay`. -/
structure DayBucket where
  revenue : ℚ
  transactions : Nat
  deriving DecidableEq

/-- Add one sale's total to the bucket of day `d`, mirroring
`salesByDay[day] = {revenue: 0, transactions: 0}; += ...` on a JS object
(existing keys keep their position, new keys are appended). -/
def bucketUpd : List (Nat × DayBucket) → Nat → ℚ → List (Nat × DayBucket)
  | [], d, v => [(d, ⟨v, 1⟩)]
  | e :: es, d, v =>
    if e.1 = d then (d, ⟨e.2.revenue + v, e.2.transactions + 1⟩) :: es
    else e :: bucketUpd es d v

/-- The day key `new Date(sale.created_at || sale.timestamp).toISOString().split('T')[0]`
of a sale: the UTC calendar day of its event time.  Every sale reaching this
point has an event time (toISOString throws on an Invalid Date), so the
`getD 0` of `sortKey` is that event time. -/
def dayOf (s : Sale) : Nat := utcDay (sortKey s)

/-- `salesByDay` built by the forEach over the filtered sales. -/
def buildBuckets (l : List Sale) : List (Nat × DayBucket) :=
  l.foldl (fun m s => bucketUpd m (dayOf s) s.total) []

/-- One store's block of the consolidated report. -/
structure StoreReport where
  id : ReqVal
  revenue : ℚ
  transactions : Nat
  avgTicket : ℚ
  salesByDay : List (Nat × DayBucket)
  lastSale : Option Sale
  deriving DecidableEq

/-- One store's consolidated-report figures (src/server.js lines 848-883). -/
def mkStoreReport (start endT : Nat) (id : ReqVal) (sales : List Sale) : StoreReport :=
  let filteredSales := sales.filter (inRange start endT)
  let storeRevenue := (filteredSales.map Sale.total).sum
  let storeTransactions := filteredSales.length
  { id := id
    revenue := storeRevenue
    transactions := storeTransactions
    avgTicket := if storeTransactions > 0 then storeRevenue / storeTransactions else 0
    salesByDay := buildBuckets filteredSales
    lastSale := (List.insertionSort pullLe filteredSales).head? }

/-- The report's system totals. -/
structure Totals where
  totalRevenue : ℚ
  totalTransactions : Nat
  avgTicket : ℚ
  deriving DecidableEq

/-- The consolidated report. -/
structure Report where
  stores : List StoreReport
  totals : Totals
  deriving DecidableEq

/-- Descending order by store revenue (`b.revenue - a.revenue`). -/
def revDesc (a b : StoreReport) : Prop := b.revenue ≤ a.revenue

instance : DecidableRel revDesc := fun a b => inferInstanceAs (Decidable (b.revenue ≤ a.revenue))

instance : IsTotal StoreReport revDesc := ⟨fun a b => le_total b.revenue a.revenue⟩

instance : IsTrans StoreReport revDesc := ⟨fun _ _ _ hab hbc => le_trans hbc hab⟩

/-- GET /api/owner/report (src/server.js lines 830-900): per-store figures in
store-map order, totals accumulated over the same loop, then the store list
sorted by revenue, largest first. -/
def report (σ : SalesStore) (start endT : Nat) : Report :=
  let storeReports := σ.map fun e => mkStoreReport start endT e.1 e.2
  let totalRevenue := (storeReports.map StoreReport.revenue).sum
  let totalTransactions := (storeReports.map StoreReport.transactions).sum
  { stores := List.insertionSort revDesc storeReports
    totals :=
      { totalRevenue := totalRevenue
        totalTransactions := totalTransactions
        avgTicket := if totalTransactions > 0 then totalRevenue / totalTransactions else 0 } }

/-! ### Owner compare (/api/owner/compare) -/

/-- The local-midnight instant of the local calendar day containing `t`, for a
process time zone `tz` milliseconds east of UTC: what
`setHours(0, 0, 0, 0)` produces on a date holding `t`. -/
def localMidnight (tz t : Int) : Int := t - (t + tz) % (86400000 : Int)

/-- One daily bucket of the comparison, identified by its starting instant
(the local midnight whose `toISOString` date labels it in the source). -/
structure CompareDay where
  dayStart : Int
  revenue : ℚ
  transactions : Nat
  deriving DecidableEq

/-- The sales of the day starting at `dayStart`:
`saleDate >= date && saleDate < nextDate` (half-open day window). -/
def compareDaySales (sales : List Sale) (dayStart : Int) : List Sale :=
  sales.filter fun s =>
    match evTime s with
    | some t => decide (dayStart ≤ (t : Int)) && decide ((t : Int) < dayStart + 86400000)
    | none => false

/-- One daily bucket of the comparison. -/
def mkCompareDay (sales : List Sale) (dayStart : Int) : CompareDay :=
  let daySales := compareDaySales sales dayStart
  ⟨dayStart, (daySales.map Sale.total).sum, daySales.length⟩

/-- One store's block of the comparison. -/
structure CompareEntry where
  storeId : ReqVal
  dailyData : List CompareDay
  totalRevenue : ℚ
  totalTransactions : Nat
  deriving DecidableEq

/-- One store's comparison block (src/server.js lines 1000-1030): the loop
runs `i = days-1` down to `0`, so the `j`-th pushed bucket starts at local
midnight of today minus `days-1-j` days; totals sum the buckets. -/
def mkCompareEntry (tz now : Int) (days : Nat) (id : ReqVal) (sales : List Sale) : CompareEntry :=
  let dailyData := (List.range days).map fun j =>
    mkCompareDay sales (localMidnight tz now - ((days - 1 - j : Nat) : Int) * 86400000)
  { storeId := id
    dailyData := dailyData
    totalRevenue := (dailyData.map CompareDay.revenue).sum
    totalTransactions := (dailyData.map CompareDay.transactions).sum }

/-- Descending order by total revenue over the window. -/
def cmpDesc (a b : CompareEntry) : Prop := b.totalRevenue ≤ a.totalRevenue

instance : DecidableRel cmpDesc :=
  fun a b => inferInstanceAs (Decidable (b.totalRevenue ≤ a.totalRevenue))

instance : IsTotal CompareEntry cmpDesc := ⟨fun a b => le_total b.totalRevenue a.totalRevenue⟩

instance : IsTrans CompareEntry cmpDesc := ⟨fun _ _ _ hab hbc => le_trans hbc hab⟩

/-- GET /api/owner/compare (src/server.js lines 992-1041): one entry per store
of the sales map, sorted by window revenue, largest first.  `days` is
`parseInt(period)` and `now`/`tz` are the request instant and the process
time-zone offset. -/
def compareStores (σ : SalesStore) (days : Nat) (now tz : Int) : List CompareEntry :=
  List.insertionSort cmpDesc (σ.map fun e => mkCompareEntry tz now days e.1 e.2)

/-- Modelled from the spec: the "local calendar day" of an event time, for a
process time zone `tz` milliseconds east of UTC — the calendar-day index of
the local wall-clock reading of `t`.  The source has no such definition (its
report buckets use `toISOString`); this one exists to compare the spec's
words against the code. -/
def localCalendarDay (tz : Int) (t : Nat) : Int := ((t : Int) + tz).fdiv 86400000

/-! ### Map lemmas -/

theorem mapGet_mapSet_self {K V : Type} [DecidableEq K] (m : List (K × V)) (k : K) (v : V) :
    mapGet (mapSet m k v) k = some v := by
  induction m with
  | nil => simp [mapSet, mapGet]
  | cons e es ih =>
    by_cases h : e.1 = k
    · simp [mapSet, h, mapGet]
    · simp [mapSet, h, mapGet, ih]

theorem mapGet_mapSet_ne {K V : Type} [DecidableEq K] (m : List (K × V)) (k k' : K) (v : V)
    (h : k' ≠ k) : mapGet (mapSet m k v) k' = mapGet m k' := by
  have hk : ¬(k = k') := fun h' => h h'.symm
  induction m with
  | nil => simp [mapSet, mapGet, hk]
  | cons e es ih =>
    by_cases he : e.1 = k
    · simp [mapSet, mapGet, he, hk]
    · simp [mapSet, mapGet, he, ih]

theorem mapSet_eq_self {K V : Type} [DecidableEq K] {m : List (K × V)} {k : K} {v : V}
    (h : mapGet m k = some v) : mapSet m k v = m := by
  induction m with
  | nil => simp [mapGet] at h
  | cons e es ih =>
    obtain ⟨k', v'⟩ := e
    by_cases he : k' = k
    · subst he
      simp [mapGet] at h
      simp [mapSet, h]
    · simp [mapGet, he] at h
      simp [mapSet, he, ih h]

theorem mem_mapSet {K V : Type} [DecidableEq K] {m : List (K × V)} {k : K} {v : V} {e : K × V}
    (h : e ∈ mapSet m k v) : e = (k, v) ∨ e ∈ m := by
  induction m with
  | nil =>
    simp only [mapSet, List.mem_singleton] at h
    exact Or.inl h
  | cons f fs ih =>
    by_cases hf : f.1 = k
    · simp only [mapSet, if_pos hf, List.mem_cons] at h
      rcases h with h | h
      · exact Or.inl h
      · exact Or.inr (List.mem_cons_of_mem _ h)
    · simp only [mapSet, if_neg hf, List.mem_cons] at h
      rcases h with h | h
      · exact Or.inr (h ▸ List.mem_cons_self _ _)
      · rcases ih h with h' | h'
        · exact Or.inl h'
        · exact Or.inr (List.mem_cons_of_mem _ h')

theorem mapGet_mem {K V : Type} [DecidableEq K] {m : List (K × V)} {k : K} {v : V}
    (h : mapGet m k = some v) : (k, v) ∈ m := by
  induction m with
  | nil => simp [mapGet] at h
  | cons e es ih =>
    obtain ⟨k', v'⟩ := e
    by_cases he : k' = k
    · subst he
      simp [mapGet] at h
      subst h
      exact List.mem_cons_self _ _
    · simp [mapGet, he] at h
      exact List.mem_cons_of_mem _ (ih h)

/-! ### Push lemmas -/

theorem push_valid_eq (σ : SalesStore) (sid : ReqVal) (b : List Sale)
    (h : sid.truthy = true) :
    push σ (some sid) (some (.arr b)) = pushBody σ sid b := by
  simp [push, truthyOpt, isArrOpt, h, getArr, Option.getD]

theorem pushBody_get_self (σ : SalesStore) (sid : ReqVal) (b : List Sale) :
    mapGet (pushBody σ sid b).1 sid = some (existingOf σ sid ++ freshOf σ sid b) :=
  mapGet_mapSet_self σ sid _

/-- After a push of batch `b`, no record of `b` is fresh any more: every one
of its sale numbers now occurs in the ledger. -/
theorem freshOf_pushBody_self (σ : SalesStore) (sid : ReqVal) (b : List Sale) :
    freshOf (pushBody σ sid b).1 sid b = [] := by
  rw [freshOf]
  apply List.filter_eq_nil_iff.mpr
  intro s hs
  rw [existingOf, pushBody_get_self, Option.getD_some]
  simp only [Bool.not_eq_true', Bool.not_eq_false, List.any_append, Bool.or_eq_true]
  by_cases hE : ((existingOf σ sid).any fun ex => ex.sale_number == s.sale_number) = true
  · exact Or.inl hE
  · refine Or.inr (List.any_eq_true.mpr ⟨s, ?_, by simp⟩)
    exact List.mem_filter.mpr ⟨hs, by simp_all⟩

/-- C1 helper: the ledger after pushing the same batch again. -/
theorem pushBody_twice (σ : SalesStore) (sid : ReqVal) (b : List Sale) :
    pushBody (pushBody σ sid b).1 sid b = ((pushBody σ sid b).1,
      .ok 0 (existingOf σ sid ++ freshOf σ sid b).length) := by
  have hfresh := freshOf_pushBody_self σ sid b
  have hex : existingOf (pushBody σ sid b).1 sid = existingOf σ sid ++ freshOf σ sid b := by
    rw [existingOf, pushBody_get_self, Option.getD_some]
  rw [pushBody, hfresh, hex, List.append_nil]
  have hset : mapSet (pushBody σ sid b).1 sid (existingOf σ sid ++ freshOf σ sid b) =
      (pushBody σ sid b).1 := mapSet_eq_self (pushBody_get_self σ sid b)
  rw [hset]
  simp [hfresh, pushBody_get_self σ sid b]

/-- C1: pushing the same batch twice is idempotent.  After a first push of
batch `b` to store `sid`, a second push of `b` leaves the store's ledger
unchanged, accepts 0 records, and reports as `totalSales` the ledger length
after the first push. -/
theorem push_idempotent (σ : SalesStore) (sid : ReqVal) (b : List Sale)
    (h : sid.truthy = true) :
    mapGet (push (push σ (some sid) (some (.arr b))).1 (some sid) (some (.arr b))).1 sid =
      mapGet (push σ (some sid) (some (.arr b))).1 sid ∧
    (push (push σ (some sid) (some (.arr b))).1 (some sid) (some (.arr b))).2 =
      PushResp.ok 0 ((mapGet (push σ (some sid) (some (.arr b))).1 sid).getD []).length := by
  rw [push_valid_eq σ sid b h, push_valid_eq _ sid b h, pushBody_twice]
  refine ⟨rfl, ?_⟩
  rw [pushBody_get_self, Option.getD_some]

/-- Witness for C1 at a concrete input: one sale pushed twice to store 1. -/
theorem push_idempotent_witness :
    (ReqVal.num 1).truthy = true ∧
    (mapGet (push (push [] (some (.num 1))
          (some (.arr [⟨"A1", none, some 5, 10⟩]))).1 (some (.num 1))
          (some (.arr [⟨"A1", none, some 5, 10⟩]))).1 (.num 1) =
        mapGet (push [] (some (.num 1)) (some (.arr [⟨"A1", none, some 5, 10⟩]))).1 (.num 1) ∧
      (push (push [] (some (.num 1)) (some (.arr [⟨"A1", none, some 5, 10⟩]))).1 (some (.num 1))
          (some (.arr [⟨"A1", none, some 5, 10⟩]))).2 =
        PushResp.ok 0 ((mapGet (push [] (some (.num 1))
          (some (.arr [⟨"A1", none, some 5, 10⟩]))).1 (.num 1)).getD []).length) :=
  ⟨by decide, push_idempotent [] (.num 1) [⟨"A1", none, some 5, 10⟩] (by decide)⟩

/-! ### Sale-number uniqueness (C2) -/

/-- A ledger has at most one record per `sale_number`. -/
def ledgerNodup (l : List Sale) : Prop := (l.map Sale.sale_number).Nodup

/-- Every ledger of the sales map has at most one record per `sale_number`. -/
def stateInv (σ : SalesStore) : Prop := ∀ e ∈ σ, ledgerNodup e.2

/-- Server states reachable through the push protocol when every pushed
batch that is an array has pairwise-distinct sale numbers.  The sales map
starts empty and only /api/sync/push writes to it. -/
inductive ReachableND : SalesStore → Prop where
  | init : ReachableND []
  | step (σ : SalesStore) (storeId sales : Option ReqVal)
      (hb : ∀ b, sales = some (.arr b) → (b.map Sale.sale_number).Nodup)
      (h : ReachableND σ) : ReachableND (push σ storeId sales).1

theorem stateInv_nil : stateInv [] := fun e he => absurd he (List.not_mem_nil e)

/-- The existing ledger read by a push satisfies the invariant of its state. -/
theorem ledgerNodup_existingOf {σ : SalesStore} (sid : ReqVal) (hσ : stateInv σ) :
    ledgerNodup (existingOf σ sid) := by
  rw [existingOf]
  cases hget : mapGet σ sid with
  | none => simp [ledgerNodup]
  | some l => exact hσ (sid, l) (mapGet_mem hget)

/-- A single push preserves the per-store uniqueness of `sale_number`,
provided the batch itself has pairwise-distinct sale numbers. -/
theorem stateInv_push (σ : SalesStore) (storeId sales : Option ReqVal)
    (hσ : stateInv σ)
    (hb : ∀ b, sales = some (.arr b) → (b.map Sale.sale_number).Nodup) :
    stateInv (push σ storeId sales).1 := by
  by_cases hg : (truthyOpt storeId && isArrOpt sales) = true
  · have harr : isArrOpt sales = true := ((Bool.and_eq_true _ _).mp hg).2
    obtain ⟨b, hbs⟩ : ∃ b, sales = some (.arr b) := by
      cases sales with
      | none => simp [isArrOpt] at harr
      | some v =>
        cases v with
        | arr l => exact ⟨l, rfl⟩
        | num n => simp [isArrOpt] at harr
        | str s => simp [isArrOpt] at harr
        | bool c => simp [isArrOpt] at harr
        | null => simp [isArrOpt] at harr
    subst hbs
    rw [push, if_pos hg]
    set sid := (storeId.getD ReqVal.null) with hsid
    intro e he
    have he' : e ∈ mapSet σ sid
        (existingOf σ sid ++ freshOf σ sid (getArr (some (.arr b)))) := he
    rcases mem_mapSet he' with rfl | hmem
    · show ledgerNodup (existingOf σ sid ++ freshOf σ sid (getArr (some (.arr b))))
      have hbn := hb b rfl
      have hEn := ledgerNodup_existingOf sid hσ
      rw [ledgerNodup, List.map_append, List.nodup_append]
      refine ⟨hEn, ?_, ?_⟩
      · exact List.Nodup.sublist ((List.filter_sublist b).map Sale.sale_number) hbn
      · intro x hxE hxN
        obtain ⟨s, hsN, rfl⟩ := List.mem_map.mp hxN
        have hpred := (List.mem_filter.mp hsN).2
        obtain ⟨ex, hexE, hexEq⟩ := List.mem_map.mp hxE
        rw [Bool.not_eq_true', List.any_eq_false] at hpred
        exact absurd (by simp [hexEq]) (hpred ex hexE)
    · exact hσ e hmem
  · rw [push, if_neg hg]
    exact hσ

/-- The push-side dedup predicate, restated: a record is fresh iff its
`sale_number` does not occur in the existing ledger. -/
theorem freshOf_eq_not_mem (σ : SalesStore) (sid : ReqVal) (b : List Sale) :
    freshOf σ sid b =
      b.filter fun s =>
        decide (s.sale_number ∉ (existingOf σ sid).map Sale.sale_number) := by
  rw [freshOf]
  apply List.filter_congr
  intro s _
  rw [decide_not]
  apply congrArg
  by_cases hmem : s.sale_number ∈ (existingOf σ sid).map Sale.sale_number
  · rw [decide_eq_true hmem]
    obtain ⟨ex, hex, hexEq⟩ := List.mem_map.mp hmem
    exact List.any_eq_true.mpr ⟨ex, hex, by simp [hexEq]⟩
  · rw [decide_eq_false hmem]
    apply List.any_eq_false.mpr
    intro ex hex
    intro hEq
    exact hmem (List.mem_map.mpr ⟨ex, hex, by simpa using hEq⟩)

/-- C2 (amended): (1) in every state reachable through pushes whose batches
have pairwise-distinct sale numbers, each store's ledger has at most one
record per `sale_number`; (2) a push appends exactly the incoming records
whose `sale_number` is not already in that store's ledger — a record that
repeats a stored `sale_number` is silently dropped. -/
theorem push_dedup_invariant :
    (∀ σ : SalesStore, ReachableND σ → stateInv σ) ∧
    (∀ (σ : SalesStore) (sid : ReqVal) (b : List Sale), sid.truthy = true →
      mapGet (push σ (some sid) (some (.arr b))).1 sid =
        some (existingOf σ sid ++
          b.filter fun s =>
            decide (s.sale_number ∉ (existingOf σ sid).map Sale.sale_number))) := by
  constructor
  · intro σ h
    induction h with
    | init => exact stateInv_nil
    | step σ' storeId sales hb _ ih => exact stateInv_push σ' storeId sales ih hb
  · intro σ sid b h
    rw [push_valid_eq σ sid b h, pushBody_get_self, freshOf_eq_not_mem]

/-- Witness for C2 (amended) at concrete inputs: the invariant holds in the
state reached by pushing one duplicate-free batch to store 1, and that push
appended exactly the fresh record. -/
theorem push_dedup_invariant_witness :
    stateInv (push [] (some (.num 1)) (some (.arr [⟨"A1", none, some 5, 10⟩]))).1 ∧
    mapGet (push [] (some (.num 1)) (some (.arr [⟨"A1", none, some 5, 10⟩]))).1 (.num 1) =
      some (existingOf [] (.num 1) ++
        [⟨"A1", none, some 5, 10⟩].filter fun s =>
          decide (s.sale_number ∉ (existingOf [] (.num 1)).map Sale.sale_number)) :=
  ⟨push_dedup_invariant.1 _
      (ReachableND.step [] (some (.num 1)) (some (.arr [⟨"A1", none, some 5, 10⟩]))
        (fun b hb => by injection hb with hb; injection hb with hb; rw [← hb]; decide
          ) ReachableND.init),
    push_dedup_invariant.2 [] (.num 1) [⟨"A1", none, some 5, 10⟩] (by decide)⟩

/-- C2 counterexample: a single push whose batch repeats a `sale_number` that
is new to the ledger stores the record twice — the batch is only filtered
against the pre-push ledger, never against itself.  From the empty state,
pushing `[A1, A1]` to store 1 yields a ledger with two `A1` records. -/
theorem push_batch_dup_counterexample :
    (push [] (some (.num 1))
        (some (.arr [⟨"A1", none, some 5, 10⟩, ⟨"A1", none, some 6, 20⟩]))).1 =
      [(.num 1, [⟨"A1", none, some 5, 10⟩, ⟨"A1", none, some 6, 20⟩])] ∧
    ¬ ledgerNodup [⟨"A1", none, some 5, 10⟩, ⟨"A1", none, some 6, 20⟩] := by
  constructor
  · decide
  · show ¬ ([(⟨"A1", none, some 5, 10⟩ : Sale), ⟨"A1", none, some 6, 20⟩].map
        Sale.sale_number).Nodup
    decide

/-! ### Push validation (C3, C10) -/

/-- C3 (amended): a request with an absent or falsy `storeId`, or whose
`sales` is absent or not an array, is rejected with a validation error and
mutates nothing.  An *empty* `sales` array, however, passes the guard
(`![]` is false in JS): the push succeeds, accepts 0 records, leaves every
ledger's contents unchanged, and only (re)writes the store's own entry with
its existing contents. -/
theorem push_validation :
    (∀ (σ : SalesStore) (storeId sales : Option ReqVal),
      truthyOpt storeId = false ∨ isArrOpt sales = false →
      push σ storeId sales = (σ, .invalid)) ∧
    (∀ (σ : SalesStore) (sid : ReqVal), sid.truthy = true →
      (push σ (some sid) (some (.arr []))).2 =
        PushResp.ok 0 ((mapGet σ sid).getD []).length ∧
      mapGet (push σ (some sid) (some (.arr []))).1 sid = some ((mapGet σ sid).getD []) ∧
      ∀ k, k ≠ sid → mapGet (push σ (some sid) (some (.arr []))).1 k = mapGet σ k) := by
  constructor
  · intro σ storeId sales h
    rw [push, if_neg]
    simp only [Bool.and_eq_true, not_and]
    rcases h with h | h <;> simp [h]
  · intro σ sid h
    have hempty : freshOf σ sid [] = [] := rfl
    refine ⟨?_, ?_, ?_⟩
    · rw [push_valid_eq σ sid [] h, pushBody, hempty, List.append_nil,
        mapGet_mapSet_self, Option.getD_some, existingOf]
      rfl
    · rw [push_valid_eq σ sid [] h, pushBody, hempty, List.append_nil,
        mapGet_mapSet_self, existingOf]
    · intro k hk
      rw [push_valid_eq σ sid [] h, pushBody]
      exact mapGet_mapSet_ne σ sid k _ hk

/-- Witness for C3 (amended) at concrete inputs: an absent `storeId` is
rejected without mutation, and an empty array pushed to store 1 succeeds
with 0 accepted records. -/
theorem push_validation_witness :
    truthyOpt none = false ∧
    push [] none (some (.arr [⟨"A1", none, some 5, 10⟩])) = ([], .invalid) ∧
    (ReqVal.num 1).truthy = true ∧
    (push [(.num 1, [⟨"A1", none, some 5, 10⟩])] (some (.num 1)) (some (.arr []))).2 =
      PushResp.ok 0
        ((mapGet ([(.num 1, [⟨"A1", none, some 5, 10⟩])] : SalesStore)
          (ReqVal.num 1)).getD []).length :=
  ⟨rfl,
    push_validation.1 [] none (some (.arr [⟨"A1", none, some 5, 10⟩])) (Or.inl rfl),
    by decide,
    (push_validation.2 [(.num 1, [⟨"A1", none, some 5, 10⟩])] (.num 1) (by decide)).1⟩

/-- C3 counterexample: the claim says an empty `sales` array draws a
validation error with no state change, but the code accepts it — `![]` is
falsy in JS, so an empty array passes `!sales || !Array.isArray(sales)`.
The response is a success and the state even gains an (empty) ledger entry
for the store. -/
theorem push_empty_array_counterexample :
    (push [] (some (.num 1)) (some (.arr []))).2 ≠ PushResp.invalid ∧
    (push [] (some (.num 1)) (some (.arr []))).1 ≠ ([] : SalesStore) := by
  constructor <;> decide

/-- C10: any falsy `storeId` — the number 0, the empty string, or an absent
field — fails the `!storeId` guard, so the push is rejected as invalid and
no state is stored, whatever the `sales` payload; a store with id 0 can
never push sales. -/
theorem push_falsy_storeId_rejected (σ : SalesStore) (sales : Option ReqVal) :
    push σ (some (.num 0)) sales = (σ, .invalid) ∧
    push σ (some (.str "")) sales = (σ, .invalid) ∧
    push σ none sales = (σ, .invalid) := by
  refine ⟨?_, ?_, ?_⟩ <;> rw [push, if_neg] <;>
    simp [truthyOpt, ReqVal.truthy]

/-! ### Pull (C4, C5) -/

theorem pull_collect_mem (σ : SalesStore) (sid : Option Int) (since : Option Nat)
    (acc : List Sale) (s : Sale) :
    (s ∈ σ.foldl
        (fun acc e => if skipStore sid e.1 then acc else acc ++ e.2.filter (sinceKeep since))
        acc) ↔
      s ∈ acc ∨ ∃ e ∈ σ, skipStore sid e.1 = false ∧ s ∈ e.2 ∧ sinceKeep since s = true := by
  induction σ generalizing acc with
  | nil => simp
  | cons e es ih =>
    simp only [List.foldl_cons]
    by_cases hskip : skipStore sid e.1 = true
    · rw [if_pos hskip, ih]
      constructor
      · rintro (h | h)
        · exact Or.inl h
        · obtain ⟨f, hf, hp⟩ := h
          exact Or.inr ⟨f, List.mem_cons_of_mem _ hf, hp⟩
      · rintro (h | h)
        · exact Or.inl h
        · obtain ⟨f, hf, hsk, hmem, hkeep⟩ := h
          rcases List.mem_cons.mp hf with rfl | hf'
          · rw [hskip] at hsk
            cases hsk
          · exact Or.inr ⟨f, hf', hsk, hmem, hkeep⟩
    · have hskip' : skipStore sid e.1 = false := Bool.eq_false_iff.mpr hskip
      rw [if_neg hskip, ih]
      constructor
      · rintro (h | h)
        · rcases List.mem_append.mp h with h' | h'
          · exact Or.inl h'
          · obtain ⟨hmem, hkeep⟩ := List.mem_filter.mp h'
            exact Or.inr ⟨e, List.mem_cons_self _ _, hskip', hmem, hkeep⟩
        · obtain ⟨f, hf, hp⟩ := h
          exact Or.inr ⟨f, List.mem_cons_of_mem _ hf, hp⟩
      · rintro (h | h)
        · exact Or.inl (List.mem_append.mpr (Or.inl h))
        · obtain ⟨f, hf, hsk, hmem, hkeep⟩ := h
          rcases List.mem_cons.mp hf with rfl | hf'
          · exact Or.inl (List.mem_append.mpr (Or.inr (List.mem_filter.mpr ⟨hmem, hkeep⟩)))
          · exact Or.inr ⟨f, hf', hsk, hmem, hkeep⟩

theorem sinceKeep_iff (since : Option Nat) (s : Sale) :
    sinceKeep since s = true ↔ ∀ t, since = some t → ∃ ts, evTime s = some ts ∧ t < ts := by
  cases since with
  | none => simp [sinceKeep]
  | some t =>
    cases hev : evTime s with
    | none => simp [sinceKeep, hev]
    | some ts => simp [sinceKeep, hev]

theorem skipStore_eq_false_iff (sid : Option Int) (k : ReqVal) :
    skipStore sid k = false ↔ ∀ m, sid = some m → k ≠ ReqVal.num m := by
  cases sid with
  | none => simp [skipStore]
  | some m => simp [skipStore]

/-- C4: a sale is in the pull result exactly when it lies in the ledger of a
store other than the requesting one (every store when no `storeId` is
given), and — when `since` is given — its event time (`created_at`, else
`timestamp`) is strictly greater than `since` (so sales of the requesting
store never appear, sales at exactly `since` are excluded, and without
`since` there is no time filter; a sale with no event time at all is only
returned when `since` is absent, matching its fallback event time 0 never
exceeding any `since`). -/
theorem pull_membership (σ : SalesStore) (sid : Option Int) (since : Option Nat) (s : Sale) :
    s ∈ pull σ sid since ↔
      ∃ e ∈ σ, (∀ m, sid = some m → e.1 ≠ ReqVal.num m) ∧ s ∈ e.2 ∧
        (∀ t, since = some t → ∃ ts, evTime s = some ts ∧ t < ts) := by
  rw [pull]
  rw [List.mem_insertionSort, pull_collect_mem]
  simp only [List.not_mem_nil, false_or]
  apply exists_congr
  intro e
  apply and_congr_right
  intro _
  rw [skipStore_eq_false_iff, sinceKeep_iff]

/-- Witness for C4 at concrete inputs: store 1 pulls with `since = 4`; store
2's sale at time 9 is the candidate. -/
theorem pull_membership_witness :
    ((⟨"B", some 9, none, 5⟩ : Sale) ∈
        pull [(.num 1, [⟨"A", some 3, none, 1⟩]), (.num 2, [⟨"B", some 9, none, 5⟩])]
          (some 1) (some 4) ↔
      ∃ e ∈ ([(.num 1, [⟨"A", some 3, none, 1⟩]),
          (.num 2, [⟨"B", some 9, none, 5⟩])] : SalesStore),
        (∀ m, (some 1 : Option Int) = some m → e.1 ≠ ReqVal.num m) ∧
          (⟨"B", some 9, none, 5⟩ : Sale) ∈ e.2 ∧
          (∀ t, (some 4 : Option Nat) = some t →
            ∃ ts, evTime ⟨"B", some 9, none, 5⟩ = some ts ∧ t < ts)) :=
  pull_membership _ _ _ _

/-- C5: the pull result is sorted in descending order of event time
(`created_at`, else `timestamp`, else 0); in particular three sales at times
1 < 2 < 3 come back newest first. -/
theorem pull_sorted_desc :
    (∀ (σ : SalesStore) (sid : Option Int) (since : Option Nat),
      (pull σ sid since).Sorted pullLe) ∧
    pull [(.num 1, [⟨"A", some 1, none, 10⟩, ⟨"B", some 2, none, 20⟩, ⟨"C", some 3, none, 30⟩])]
        none none =
      [⟨"C", some 3, none, 30⟩, ⟨"B", some 2, none, 20⟩, ⟨"A", some 1, none, 10⟩] := by
  constructor
  · intro σ sid since
    exact List.sorted_insertionSort pullLe _
  · decide

/-! ### Catalog upsert (C6) -/

/-- Every entry of a product map is stored under its own product key. -/
def entryInvP (m : List (Option ProdKey × Product)) : Prop :=
  ∀ e ∈ m, e.1 = prodKey e.2

theorem keys_mem_mapSet {K V : Type} [DecidableEq K] {m : List (K × V)} {k x : K} {v : V}
    (h : x ∈ (mapSet m k v).map Prod.fst) : x = k ∨ x ∈ m.map Prod.fst := by
  obtain ⟨e, he, rfl⟩ := List.mem_map.mp h
  rcases mem_mapSet he with rfl | he'
  · exact Or.inl rfl
  · exact Or.inr (List.mem_map.mpr ⟨e, he', rfl⟩)

theorem keysNodup_mapSet {K V : Type} [DecidableEq K] (m : List (K × V)) (k : K) (v : V)
    (h : (m.map Prod.fst).Nodup) : ((mapSet m k v).map Prod.fst).Nodup := by
  induction m with
  | nil => simp [mapSet]
  | cons e es ih =>
    by_cases he : e.1 = k
    · rw [mapSet, if_pos he]
      simp only [List.map_cons, List.nodup_cons] at h ⊢
      exact ⟨he ▸ h.1, h.2⟩
    · rw [mapSet, if_neg he]
      simp only [List.map_cons, List.nodup_cons] at h ⊢
      refine ⟨?_, ih h.2⟩
      intro hmem
      rcases keys_mem_mapSet hmem with h' | h'
      · exact he h'
      · exact h.1 h'

theorem entryInvP_mapSet {m : List (Option ProdKey × Product)} (h : entryInvP m)
    (p : Product) : entryInvP (mapSet m (prodKey p) p) := by
  intro e he
  rcases mem_mapSet he with rfl | he'
  · rfl
  · exact h e he'

theorem buildProdMap_entryInvP (ps : List Product) (init : List (Option ProdKey × Product))
    (h : entryInvP init) : entryInvP (buildProdMap init ps) := by
  induction ps generalizing init with
  | nil => exact h
  | cons p ps ih => exact ih _ (entryInvP_mapSet h p)

theorem buildProdMap_keysNodup (ps : List Product) (init : List (Option ProdKey × Product))
    (h : (init.map Prod.fst).Nodup) : ((buildProdMap init ps).map Prod.fst).Nodup := by
  induction ps generalizing init with
  | nil => exact h
  | cons p ps ih => exact ih _ (keysNodup_mapSet init (prodKey p) p h)

/-- In a well-keyed, duplicate-free product map, the values whose product key
is `k` are exactly the map's value at `k`. -/
theorem filter_values_eq_of_get {m : List (Option ProdKey × Product)} {k : Option ProdKey}
    {v : Product} (hinv : entryInvP m) (hnd : (m.map Prod.fst).Nodup)
    (hget : mapGet m k = some v) :
    (m.map Prod.snd).filter (fun q => decide (prodKey q = k)) = [v] := by
  induction m with
  | nil => simp [mapGet] at hget
  | cons e es ih =>
    obtain ⟨ek, ev⟩ := e
    have hek : ek = prodKey ev := hinv (ek, ev) (List.mem_cons_self _ _)
    simp only [List.map_cons, List.nodup_cons] at hnd
    by_cases he : ek = k
    · rw [mapGet, if_pos he] at hget
      injection hget with hget
      subst hget
      rw [List.map_cons, List.filter_cons, if_pos (by simp [← hek, he])]
      have htail : (es.map Prod.snd).filter (fun q => decide (prodKey q = k)) = [] := by
        apply List.filter_eq_nil_iff.mpr
        intro q hq
        obtain ⟨f, hf, rfl⟩ := List.mem_map.mp hq
        have hfk : f.1 = prodKey f.2 := hinv f (List.mem_cons_of_mem _ hf)
        simp only [decide_eq_true_eq]
        intro hqk
        exact hnd.1 (List.mem_map.mpr ⟨f, hf, by rw [hfk, hqk]; exact he.symm⟩)
      rw [htail]
    · rw [mapGet, if_neg he] at hget
      rw [List.map_cons, List.filter_cons, if_neg (by simp [← hek, he])]
      exact ih (fun f hf => hinv f (List.mem_cons_of_mem _ hf)) hnd.2 hget

theorem pushCatalog_products (σp : ProductsStore) (κ : CatStore) (sid : ReqVal)
    (ps : List Product) (cats : Option (List Category)) (lastB : Bool)
    (h : sid.truthy = true) (hps : 0 < ps.length) :
    (pushCatalog σp κ (some sid) (some ps) cats lastB).1 =
      mapSet σp sid (mergeProducts ((mapGet σp sid).getD []) ps) := by
  rw [pushCatalog.eq_def, if_pos (by simp [truthyOpt, h])]
  simp [hps]

/-- C6: products are upserted by identity key (`id`, else `barcode`, else
`sku`, first truthy wins) and a key match fully replaces the stored record:
pushing `p1` and then `p2`, both resolving to the same key `k` (e.g. the
same `id = 5` with different barcodes), leaves exactly one record with key
`k` in the store's product list, and that record is `p2` in full. -/
theorem catalog_upsert_by_key (σp : ProductsStore) (κ : CatStore) (sid : ReqVal)
    (p1 p2 : Product) (k : ProdKey)
    (hs : sid.truthy = true) (_h1 : prodKey p1 = some k) (h2 : prodKey p2 = some k) :
    ((mapGet (pushCatalog
          (pushCatalog σp κ (some sid) (some [p1]) none false).1
          (pushCatalog σp κ (some sid) (some [p1]) none false).2.1
          (some sid) (some [p2]) none false).1 sid).getD []).filter
        (fun q => decide (prodKey q = some k)) = [p2] := by
  rw [pushCatalog_products _ _ _ _ _ _ hs (by simp),
    pushCatalog_products _ _ _ _ _ _ hs (by simp),
    mapGet_mapSet_self, Option.getD_some]
  set L1 := mergeProducts ((mapGet σp sid).getD []) [p1] with hL1
  rw [mapGet_mapSet_self, Option.getD_some]
  show ((buildProdMap (buildProdMap [] L1) [p2]).map Prod.snd).filter
      (fun q => decide (prodKey q = some k)) = [p2]
  have hstep : buildProdMap (buildProdMap [] L1) [p2] =
      mapSet (buildProdMap [] L1) (prodKey p2) p2 := rfl
  rw [hstep]
  apply filter_values_eq_of_get
  · exact entryInvP_mapSet (buildProdMap_entryInvP L1 [] (fun e he => absurd he (List.not_mem_nil e))) p2
  · exact keysNodup_mapSet _ _ _ (buildProdMap_keysNodup L1 [] (by simp))
  · rw [← h2, mapGet_mapSet_self]

/-- Witness for C6 at concrete inputs: `p1` has `id = 5`, `barcode = "999"`;
`p2` has the same `id = 5` and `barcode = "777"`; both resolve to key
`id 5`, and the second push leaves exactly `p2` for that key. -/
theorem catalog_upsert_by_key_witness :
    (ReqVal.num 1).truthy = true ∧
    prodKey ⟨some 5, some "999", none, "coffee", 10⟩ = some (.inl 5) ∧
    prodKey ⟨some 5, some "777", none, "coffee", 12⟩ = some (.inl 5) ∧
    ((mapGet (pushCatalog
          (pushCatalog [] [] (some (.num 1))
            (some [⟨some 5, some "999", none, "coffee", 10⟩]) none false).1
          (pushCatalog [] [] (some (.num 1))
            (some [⟨some 5, some "999", none, "coffee", 10⟩]) none false).2.1
          (some (.num 1)) (some [⟨some 5, some "777", none, "coffee", 12⟩]) none false).1
        (.num 1)).getD []).filter
      (fun q => decide (prodKey q = some (.inl 5))) =
      [⟨some 5, some "777", none, "coffee", 12⟩] :=
  ⟨by decide, by decide, by decide,
    catalog_upsert_by_key [] [] (.num 1) ⟨some 5, some "999", none, "coffee", 10⟩
      ⟨some 5, some "777", none, "coffee", 12⟩ (.inl 5) (by decide) (by decide) (by decide)⟩

/-! ### Report totals (C7) -/

/-- C7: the consolidated report's system totals are internally consistent —
`totals.totalRevenue` and `totals.totalTransactions` are exactly the sums of
the reported stores' `revenue` and `transactions`, and `totals.avgTicket` is
their ratio (0 when there are no transactions). -/
theorem report_totals_consistent (σ : SalesStore) (start endT : Nat) :
    (report σ start endT).totals.totalRevenue =
      ((report σ start endT).stores.map StoreReport.revenue).sum ∧
    (report σ start endT).totals.totalTransactions =
      ((report σ start endT).stores.map StoreReport.transactions).sum ∧
    (report σ start endT).totals.avgTicket =
      (if (report σ start endT).totals.totalTransactions > 0 then
        (report σ start endT).totals.totalRevenue /
          (report σ start endT).totals.totalTransactions
      else 0) := by
  refine ⟨?_, ?_, rfl⟩
  · show ((σ.map fun e => mkStoreReport start endT e.1 e.2).map StoreReport.revenue).sum =
      ((List.insertionSort revDesc
        (σ.map fun e => mkStoreReport start endT e.1 e.2)).map StoreReport.revenue).sum
    exact (((List.perm_insertionSort revDesc _).map StoreReport.revenue).sum_eq).symm
  · show ((σ.map fun e => mkStoreReport start endT e.1 e.2).map StoreReport.transactions).sum =
      ((List.insertionSort revDesc
        (σ.map fun e => mkStoreReport start endT e.1 e.2)).map StoreReport.transactions).sum
    exact (((List.perm_insertionSort revDesc _).map StoreReport.transactions).sum_eq).symm

/-! ### Report day buckets (C8) -/

/-- What the spec calls a counted sale of the range `[start, endT]`: it has
an event time and that time lies in the closed interval. -/
def counted (start endT : Nat) (s : Sale) : Prop :=
  ∃ t, evTime s = some t ∧ start ≤ t ∧ t ≤ endT

instance (start endT : Nat) (s : Sale) : Decidable (counted start endT s) :=
  match hev : evTime s with
  | some t =>
    if h : start ≤ t ∧ t ≤ endT then
      Decidable.isTrue ⟨t, hev, h.1, h.2⟩
    else
      Decidable.isFalse (by
        rintro ⟨t', ht', h1, h2⟩
        rw [hev] at ht'
        injection ht' with ht'
        exact h ⟨ht' ▸ h1, ht' ▸ h2⟩)
  | none =>
    Decidable.isFalse (by
      rintro ⟨t', ht', -, -⟩
      rw [hev] at ht'
      exact Option.noConfusion ht')

/-- The report's date filter is exactly the counted-sale predicate. -/
theorem inRange_eq_counted (start endT : Nat) (s : Sale) :
    inRange start endT s = decide (counted start endT s) := by
  rcases hev : evTime s with _ | t
  · simp only [inRange, hev]
    refine (decide_eq_false ?_).symm
    rintro ⟨t, ht, -, -⟩
    rw [hev] at ht
    exact Option.noConfusion ht
  · apply Bool.eq_iff_iff.mpr
    simp only [inRange, hev, Bool.and_eq_true, decide_eq_true_eq]
    constructor
    · rintro ⟨h1, h2⟩
      exact ⟨t, hev, h1, h2⟩
    · rintro ⟨t', ht', h1, h2⟩
      rw [hev] at ht'
      injection ht' with ht'
      subst ht'
      exact ⟨h1, h2⟩

theorem mapGet_bucketUpd (m : List (Nat × DayBucket)) (d d' : Nat) (v : ℚ) :
    mapGet (bucketUpd m d' v) d =
      if d' = d then
        match mapGet m d with
        | some b => some ⟨b.revenue + v, b.transactions + 1⟩
        | none => some ⟨v, 1⟩
      else mapGet m d := by
  induction m with
  | nil => by_cases hd : d' = d <;> simp [bucketUpd, mapGet, hd]
  | cons e es ih =>
    by_cases he : e.1 = d'
    · by_cases hd : d' = d
      · subst hd
        simp [bucketUpd, mapGet, he]
      · simp [bucketUpd, mapGet, he, hd]
    · by_cases hd : d' = d
      · subst hd
        simp [bucketUpd, mapGet, he, ih]
      · simp [bucketUpd, mapGet, he, hd, ih]

/-- The bucket contents for day `d` after folding a list of sales into `m`. -/
def bucketsAfter (o : Option DayBucket) (g : List Sale) : Option DayBucket :=
  match o, g with
  | some b, g => some ⟨b.revenue + (g.map Sale.total).sum, b.transactions + g.length⟩
  | none, [] => none
  | none, g => some ⟨(g.map Sale.total).sum, g.length⟩

theorem buildBuckets_go (l : List Sale) (m : List (Nat × DayBucket)) (d : Nat) :
    mapGet (l.foldl (fun m s => bucketUpd m (dayOf s) s.total) m) d =
      bucketsAfter (mapGet m d) (l.filter fun s => decide (dayOf s = d)) := by
  induction l generalizing m with
  | nil =>
    rcases hmd : mapGet m d with _ | b
    · simp [bucketsAfter, hmd]
    · obtain ⟨r, n⟩ := b
      simp [bucketsAfter, hmd]
  | cons s l ih =>
    rw [List.foldl_cons, ih, mapGet_bucketUpd, List.filter_cons]
    by_cases hds : dayOf s = d
    · rw [if_pos hds, if_pos (by simp [hds])]
      rcases hmd : mapGet m d with _ | b
      · rcases hg : l.filter fun s => decide (dayOf s = d) with _ | ⟨a, g⟩
        · simp [bucketsAfter]
        · simp only [hg, bucketsAfter, List.map_cons, List.sum_cons, List.length_cons,
            Option.some.injEq, DayBucket.mk.injEq]
          constructor
          · ring_nf
          · omega
      · rcases hg : l.filter fun s => decide (dayOf s = d) with _ | ⟨a, g⟩
        · simp [bucketsAfter]
        · simp only [hg, bucketsAfter, List.map_cons, List.sum_cons, List.length_cons,
            Option.some.injEq, DayBucket.mk.injEq]
          constructor
          · ring_nf
          · omega
    · rw [if_neg hds, if_neg (by simp [hds])]

/-- Lookup form of the report's per-day buckets: day `d` has a bucket exactly
when the list holds a sale of UTC day `d`, and then the bucket sums exactly
those sales. -/
theorem buildBuckets_lookup (l : List Sale) (d : Nat) :
    mapGet (buildBuckets l) d =
      (if (l.filter fun s => decide (dayOf s = d)) = [] then none
       else some ⟨((l.filter fun s => decide (dayOf s = d)).map Sale.total).sum,
        (l.filter fun s => decide (dayOf s = d)).length⟩) := by
  rw [buildBuckets, buildBuckets_go]
  rcases hg : l.filter fun s => decide (dayOf s = d) with _ | ⟨a, g⟩
  · simp [mapGet, bucketsAfter]
  · simp [mapGet, bucketsAfter]

theorem filter_inRange_eq (start endT : Nat) (l : List Sale) :
    l.filter (inRange start endT) = l.filter fun s => decide (counted start endT s) :=
  List.filter_congr fun s _ => inRange_eq_counted start endT s

/-- The per-store counting/bucketing facts of the consolidated report: a sale
is counted exactly when its event time lies in the closed range
`[start, endT]`; the store's `transactions` and `revenue` are the count and
total of the counted sales; and the day bucket for UTC day `d` exists
exactly when some counted sale has that day, summing exactly those sales. -/
def storeReportSpec (start endT : Nat) (id : ReqVal) (ledger : List Sale) : Prop :=
  (mkStoreReport start endT id ledger).transactions =
      ledger.countP (fun s => decide (counted start endT s)) ∧
  (mkStoreReport start endT id ledger).revenue =
      ((ledger.filter fun s => decide (counted start endT s)).map Sale.total).sum ∧
  ∀ d : Nat,
    mapGet (mkStoreReport start endT id ledger).salesByDay d =
      (if ((ledger.filter fun s => decide (counted start endT s)).filter
            fun s => decide (dayOf s = d)) = [] then none
       else
        some ⟨(((ledger.filter fun s => decide (counted start endT s)).filter
              fun s => decide (dayOf s = d)).map Sale.total).sum,
          ((ledger.filter fun s => decide (counted start endT s)).filter
              fun s => decide (dayOf s = d)).length⟩)

theorem storeReportSpec_holds (start endT : Nat) (id : ReqVal) (ledger : List Sale) :
    storeReportSpec start endT id ledger := by
  refine ⟨?_, ?_, ?_⟩
  · show (ledger.filter (inRange start endT)).length = _
    rw [filter_inRange_eq, List.countP_eq_length_filter]
  · show ((ledger.filter (inRange start endT)).map Sale.total).sum = _
    rw [filter_inRange_eq]
  · intro d
    show mapGet (buildBuckets (ledger.filter (inRange start endT))) d = _
    rw [filter_inRange_eq, buildBuckets_lookup]

/-- C8 (amended): every block of the consolidated report is the per-store
report of one entry of the sales map, and per store a sale is counted iff
its event time lies in the closed interval `[start, endT]`, with every
counted sale booked in the bucket of its event time's **UTC** calendar day
(the date part of `toISOString`) — not its local calendar day — and each
bucket's revenue/transaction totals summing exactly that day's counted
sales. -/
theorem report_counting_and_buckets (σ : SalesStore) (start endT : Nat) :
    (∀ sr ∈ (report σ start endT).stores, ∃ e ∈ σ, sr = mkStoreReport start endT e.1 e.2) ∧
    (∀ (id : ReqVal) (ledger : List Sale), storeReportSpec start endT id ledger) := by
  constructor
  · intro sr hsr
    have hsr' : sr ∈ List.insertionSort revDesc
        (σ.map fun e => mkStoreReport start endT e.1 e.2) := hsr
    rw [List.mem_insertionSort] at hsr'
    obtain ⟨e, he, rfl⟩ := List.mem_map.mp hsr'
    exact ⟨e, he, rfl⟩
  · intro id ledger
    exact storeReportSpec_holds start endT id ledger

/-- Witness for C8 (amended) at concrete inputs: a one-store state with a
single in-range sale. -/
theorem report_counting_and_buckets_witness :
    (∀ sr ∈ (report [(ReqVal.num 1, [⟨"A1", some 50, none, 10⟩])] 0 100).stores,
      ∃ e ∈ [(ReqVal.num 1, [(⟨"A1", some 50, none, 10⟩ : Sale)])],
        sr = mkStoreReport 0 100 e.1 e.2) ∧
    storeReportSpec 0 100 (.num 1) [⟨"A1", some 50, none, 10⟩] :=
  ⟨(report_counting_and_buckets [(ReqVal.num 1, [⟨"A1", some 50, none, 10⟩])] 0 100).1,
    (report_counting_and_buckets [] 0 100).2 (.num 1) [⟨"A1", some 50, none, 10⟩]⟩

/-- C8 counterexample for the claim as stated ("local calendar day"): the
report buckets by the UTC date of `toISOString`.  A sale at 23:30 UTC of
day 0 lands in the UTC day-0 bucket, while for a process time zone of
UTC+2h its local calendar day is day 1, so the claimed local-day bucketing
fails. -/
theorem report_local_day_counterexample :
    (report [(.num 1, [⟨"A1", some 84600000, none, 10⟩])] 0 172800000).stores.map
        StoreReport.salesByDay = [[(0, ⟨10, 1⟩)]] ∧
    localCalendarDay 7200000 84600000 = 1 ∧
    (0 : Int) ≠ 1 := by
  refine ⟨?_, by decide, by decide⟩
  decide

/-! ### Store comparison (C9) -/

/-- A sale falls in the half-open day window `[d, d + 1 day)`. -/
def inDayWindow (d : Int) (s : Sale) : Prop :=
  ∃ t, evTime s = some t ∧ d ≤ (t : Int) ∧ (t : Int) < d + 86400000

instance (d : Int) (s : Sale) : Decidable (inDayWindow d s) :=
  match hev : evTime s with
  | some t =>
    if h : d ≤ (t : Int) ∧ (t : Int) < d + 86400000 then
      Decidable.isTrue ⟨t, hev, h.1, h.2⟩
    else
      Decidable.isFalse (by
        rintro ⟨t', ht', h1, h2⟩
        rw [hev] at ht'
        injection ht' with ht'
        exact h ⟨ht' ▸ h1, ht' ▸ h2⟩)
  | none =>
    Decidable.isFalse (by
      rintro ⟨t', ht', -, -⟩
      rw [hev] at ht'
      exact Option.noConfusion ht')

/-- The comparison's day filter is exactly the day-window predicate. -/
theorem compareDaySales_eq (sales : List Sale) (d : Int) :
    compareDaySales sales d = sales.filter fun s => decide (inDayWindow d s) := by
  rw [compareDaySales]
  apply List.filter_congr
  intro s _
  rcases hev : evTime s with _ | t
  · simp only [hev]
    refine (decide_eq_false ?_).symm
    rintro ⟨t, ht, -, -⟩
    rw [hev] at ht
    exact Option.noConfusion ht
  · apply Bool.eq_iff_iff.mpr
    simp only [hev, Bool.and_eq_true, decide_eq_true_eq]
    constructor
    · rintro ⟨h1, h2⟩
      exact ⟨t, hev, h1, h2⟩
    · rintro ⟨t', ht', h1, h2⟩
      rw [hev] at ht'
      injection ht' with ht'
      subst ht'
      exact ⟨h1, h2⟩

/-- Everything C9 claims of the comparison: one entry per store of the sales
map, sorted descending by window revenue; per store exactly `days` daily
buckets in chronological order (consecutive local midnights, oldest first),
the last bucket starting at today's local midnight (which indeed contains
`now`); each bucket counts and sums exactly the sales of its half-open day
window; and the per-store totals are the sums over the buckets. -/
def compareSpec (σ : SalesStore) (days : Nat) (now tz : Int) : Prop :=
  (∀ e ∈ compareStores σ days now tz, ∃ p ∈ σ, e = mkCompareEntry tz now days p.1 p.2) ∧
  (∀ p ∈ σ, mkCompareEntry tz now days p.1 p.2 ∈ compareStores σ days now tz) ∧
  (∀ (id : ReqVal) (ledger : List Sale),
    (mkCompareEntry tz now days id ledger).dailyData.length = days ∧
    List.Chain' (fun a b => b.dayStart = a.dayStart + 86400000)
      (mkCompareEntry tz now days id ledger).dailyData ∧
    (mkCompareEntry tz now days id ledger).dailyData.getLast? =
      (if days = 0 then none else some (mkCompareDay ledger (localMidnight tz now))) ∧
    (∀ b ∈ (mkCompareEntry tz now days id ledger).dailyData,
      b.transactions = ledger.countP (fun s => decide (inDayWindow b.dayStart s)) ∧
      b.revenue =
        ((ledger.filter fun s => decide (inDayWindow b.dayStart s)).map Sale.total).sum) ∧
    (mkCompareEntry tz now days id ledger).totalRevenue =
      ((mkCompareEntry tz now days id ledger).dailyData.map CompareDay.revenue).sum ∧
    (mkCompareEntry tz now days id ledger).totalTransactions =
      ((mkCompareEntry tz now days id ledger).dailyData.map CompareDay.transactions).sum) ∧
  (localMidnight tz now ≤ now ∧ now < localMidnight tz now + 86400000) ∧
  (compareStores σ days now tz).Sorted cmpDesc

/-- C9: the comparison returns, for each store of the sales map, exactly
`days` daily buckets, oldest first and ending on today, each covering
`[that day's local midnight, the next local midnight)`, with per-store
totals equal to the sums over the buckets and stores sorted descending by
total revenue. -/
theorem compare_daily_buckets (σ : SalesStore) (days : Nat) (now tz : Int) :
    compareSpec σ days now tz := by
  have hdd : ∀ (ledger : List Sale), (mkCompareEntry tz now days ReqVal.null ledger).dailyData =
      (List.range days).map (fun j => mkCompareDay ledger
        (localMidnight tz now - ((days - 1 - j : Nat) : Int) * 86400000)) := fun _ => rfl
  refine ⟨?_, ?_, ?_, ?_, ?_⟩
  · intro e he
    have he' : e ∈ List.insertionSort cmpDesc
        (σ.map fun p => mkCompareEntry tz now days p.1 p.2) := he
    rw [List.mem_insertionSort] at he'
    obtain ⟨p, hp, rfl⟩ := List.mem_map.mp he'
    exact ⟨p, hp, rfl⟩
  · intro p hp
    show mkCompareEntry tz now days p.1 p.2 ∈ List.insertionSort cmpDesc
      (σ.map fun p => mkCompareEntry tz now days p.1 p.2)
    rw [List.mem_insertionSort]
    exact List.mem_map.mpr ⟨p, hp, rfl⟩
  · intro id ledger
    refine ⟨by simp [mkCompareEntry], ?_, ?_, ?_, rfl, rfl⟩
    · show List.Chain' (fun a b => b.dayStart = a.dayStart + 86400000)
        ((List.range days).map (fun j => mkCompareDay ledger
          (localMidnight tz now - ((days - 1 - j : Nat) : Int) * 86400000)))
      rw [List.chain'_map]
      cases days with
      | zero => simp
      | succ n =>
        rw [List.chain'_range_succ]
        intro m hm
        show localMidnight tz now - ((n + 1 - 1 - (m + 1) : Nat) : Int) * 86400000 =
          localMidnight tz now - ((n + 1 - 1 - m : Nat) : Int) * 86400000 + 86400000
        omega
    · cases days with
      | zero => simp [mkCompareEntry]
      | succ n =>
        show ((List.range (n + 1)).map (fun j => mkCompareDay ledger
            (localMidnight tz now - ((n + 1 - 1 - j : Nat) : Int) * 86400000))).getLast? = _
        rw [List.range_succ, List.map_append]
        simp only [List.map_cons, List.map_nil, List.getLast?_concat]
        have h0 : (n + 1 - 1 - n : Nat) = 0 := by omega
        simp [h0]
    · intro b hb
      rw [show (mkCompareEntry tz now days id ledger).dailyData =
          (List.range days).map (fun j => mkCompareDay ledger
            (localMidnight tz now - ((days - 1 - j : Nat) : Int) * 86400000)) from rfl] at hb
      obtain ⟨j, _, rfl⟩ := List.mem_map.mp hb
      have hds : (mkCompareDay ledger
          (localMidnight tz now - ((days - 1 - j : Nat) : Int) * 86400000)).dayStart =
          localMidnight tz now - ((days - 1 - j : Nat) : Int) * 86400000 := rfl
      rw [hds]
      constructor
      · show (compareDaySales ledger _).length = _
        rw [compareDaySales_eq, List.countP_eq_length_filter]
      · show ((compareDaySales ledger _).map Sale.total).sum = _
        rw [compareDaySales_eq]
  · have h1 : 0 ≤ (now + tz) % 86400000 := Int.emod_nonneg _ (by norm_num)
    have h2 : (now + tz) % 86400000 < 86400000 :=
      Int.emod_lt_of_pos _ (by norm_num)
    constructor
    · show now - (now + tz) % 86400000 ≤ now
      omega
    · show now < now - (now + tz) % 86400000 + 86400000
      omega
  · exact List.sorted_insertionSort cmpDesc _

/-- Witness for C9 at concrete inputs: a seven-day window over a one-store
state. -/
theorem compare_daily_buckets_witness :
    compareSpec [(.num 1, [⟨"A1", some 50, none, 10⟩])] 7 100000000 0 :=
  compare_daily_buckets [(.num 1, [⟨"A1", some 50, none, 10⟩])] 7 100000000 0

end GolSync
